import Mathlib

/-!
Shallow embedding of the purelint checkers (src/purelint/__init__.py):
the `RebindChecker` scope tracker and the `ExhaustiveMatchChecker`
pattern-coverage analyzer, together with theorems settling the spec claims.

Conventions of the embedding:
* astroid expression nodes are modelled by `Purelint.TExpr`; `as_string()`
  is `Purelint.asString`.
* Python attribute errors (accessing `.name` on a node without that field,
  `.elts` on a non-tuple slice) are modelled by `Except.error`; a function
  returning `Except.ok` models the Python call returning normally.
* Python sets of strings are `Finset String`; `sorted(...)` is
  `Finset.sort (le)` with the lexicographic order on `String`.
* The lexical environment consulted by `annotation.lookup(name)` is an
  association list from names to the shape of the first definition found
  (`defs[0]`): an `Assign` parent's RHS for an `AssignName`, the class for
  a `ClassDef`, or an unrecognized definition shape.
-/

namespace Purelint

/-- Expression nodes, mirroring the astroid node kinds the checker reads:
`Name`, `Attribute`, `Const`, `Subscript`, `BinOp`, `Tuple`. -/
inductive TExpr where
  | name (s : String)
  | attr (e : TExpr) (attrname : String)
  | const (txt : String)
  | subscript (value : TExpr) (slice : TExpr)
  | binOp (op : String) (left : TExpr) (right : TExpr)
  | tuple (elts : List TExpr)


mutual

/-- astroid `as_string()` restricted to the node kinds of `TExpr`. -/
def asString : TExpr → String
  | .name s => s
  | .attr e a => asString e ++ "." ++ a
  | .const t => t
  | .subscript v s => asString v ++ "[" ++ asString s ++ "]"
  | .binOp op l r => asString l ++ " " ++ op ++ " " ++ asString r
  | .tuple es => String.intercalate ", " (asStringList es)

/-- `as_string()` mapped over a list of nodes. -/
def asStringList : List TExpr → List String
  | [] => []
  | e :: es => asString e :: asStringList es

end

/-- `s.split(".")[-1]`: the final segment of a dotted path. -/
def lastSegment (s : String) : String :=
  (s.splitOn ".").getLastD s

/-- Statement targets inside a class body (`stmt.targets`): an
`AssignName` carries a simple name, anything else is ignored. -/
inductive ClsTarget where
  | assignName (n : String)
  | otherTarget


/-- Statements of a class body: only `Assign` statements matter to
`_enum_variants_from_class`; every other statement shape is skipped. -/
inductive ClsStmt where
  | assign (targets : List ClsTarget)
  | otherStmt


/-- The shape of `defs[0]` found by `annotation.lookup(name)`, as consumed
by `_resolve_annotation_target`: an `AssignName` whose parent is an
`Assign` (the RHS is kept), a `ClassDef` (its body is kept), or any other
definition shape (which resolves to nothing). -/
inductive Definition where
  | assignDef (value : TExpr)
  | clsDef (body : List ClsStmt)
  | otherDef


/-- The lexical environment: name-to-definition bindings, first match wins. -/
abbrev Env := List (String × Definition)

/-- `_resolve_annotation_target`: look the name up; an alias assignment
resolves to its RHS type expression, a class definition to itself, and
anything else (no defs, or an unrecognized definition shape) to `none`. -/
def resolveAnnotTarget (env : Env) (n : String) : Option Definition :=
  match env.find? (fun p => p.1 = n) with
  | none => none
  | some (_, .otherDef) => none
  | some (_, d) => some d

/-- `_extract_union_variants`: a `Subscript` whose value prints as
`Union` yields the `as_string` of each element of its slice (reading
`.elts` off a non-tuple slice is an attribute error); a `BinOp` with
operator `|` yields the union of the recursive extraction of both sides;
every other expression yields the empty set. -/
def extractUnionVariants : TExpr → Except String (Finset String)
  | .subscript v sl =>
      if asString v = "Union" then
        match sl with
        | .tuple elts => .ok (elts.map asString).toFinset
        | _ => .error "AttributeError: slice object has no attribute elts"
      else .ok ∅
  | .binOp op l r =>
      if op = "|" then
        match extractUnionVariants l with
        | .error e => .error e
        | .ok a =>
            match extractUnionVariants r with
            | .error e => .error e
            | .ok b => .ok (a ∪ b)
      else .ok ∅
  | _ => .ok ∅

/-- `_enum_variants_from_class`: the names bound by `AssignName` targets of
`Assign` statements directly in the class body. -/
def enumVariantsFromClass (body : List ClsStmt) : Finset String :=
  body.foldr
    (fun stmt acc =>
      match stmt with
      | .assign targets =>
          targets.foldr
            (fun t acc2 =>
              match t with
              | .assignName n => insert n acc2
              | .otherTarget => acc2)
            acc
      | .otherStmt => acc)
    ∅

/-- `_get_variants`: only a `Name` annotation is resolved; an alias whose
RHS is a `Subscript` or `BinOp` goes through union extraction, a class
definition through enum extraction, and everything else is the empty set. -/
def getVariants (env : Env) : TExpr → Except String (Finset String)
  | .name n =>
      match resolveAnnotTarget env n with
      | none => .ok ∅
      | some (.assignDef v) =>
          match v with
          | .subscript _ _ => extractUnionVariants v
          | .binOp _ _ _ => extractUnionVariants v
          | _ => .ok ∅
      | some (.clsDef body) => .ok (enumVariantsFromClass body)
      | some .otherDef => .ok ∅
  | _ => .ok ∅

/-- Case-clause patterns, mirroring astroid `MatchAs` (with optional
capture name), `MatchClass` (whose `cls` is an arbitrary expression),
`MatchValue`, `MatchOr`, and any other pattern kind. -/
inductive Pattern where
  | matchAs (nm : Option String)
  | matchClass (cls : TExpr)
  | matchValue (value : TExpr)
  | matchOr (pats : List Pattern)
  | otherPattern


/-- A case clause: a pattern plus an optional guard expression. The
checker never reads the guard. -/
structure MatchCase where
  pattern : Pattern
  guard : Option TExpr


/-- One iteration of the loop in `_get_handled_variants`: a capture-free
`MatchAs` adds the wildcard marker, a `MatchClass` adds `pat.cls.name`
(an attribute error unless `cls` is a `Name` node), a `MatchValue` adds
the last segment of its printed value, and every other pattern kind —
including `MatchAs` with a capture name and `MatchOr` — adds nothing. -/
def handledStep (acc : Finset String) : Pattern → Except String (Finset String)
  | .matchAs none => .ok (insert "_" acc)
  | .matchClass (.name n) => .ok (insert n acc)
  | .matchClass _ => .error "AttributeError: node object has no attribute name"
  | .matchValue v => .ok (insert (lastSegment (asString v)) acc)
  | _ => .ok acc

/-- The loop of `_get_handled_variants`, threading the accumulated set
through the clauses front to back. -/
def getHandledAux (acc : Finset String) : List MatchCase → Except String (Finset String)
  | [] => .ok acc
  | c :: rest =>
      match handledStep acc c.pattern with
      | .error e => .error e
      | .ok acc2 => getHandledAux acc2 rest

/-- `_get_handled_variants`: the labels collected over all case clauses,
starting from the empty set. -/
def getHandledVariants (cases : List MatchCase) : Except String (Finset String) :=
  getHandledAux ∅ cases

/-- The ancestors of a match node, from its parent outward: either a
function definition (with its parameter list, each parameter paired with
its optional annotation, `zip(args, annotations)`) or any other node. -/
inductive Ancestor where
  | functionDef (params : List (String × Option TExpr))
  | otherNode


/-- A match construct: its subject expression, the chain of its ancestors
(innermost first), and its ordered case clauses. -/
structure MatchNode where
  subject : TExpr
  ancestors : List Ancestor
  cases : List MatchCase


/-- The `while parent and not isinstance(parent, FunctionDef)` walk: the
parameter list of the nearest enclosing function definition, if any. -/
def enclosingParams : List Ancestor → Option (List (String × Option TExpr))
  | [] => none
  | .functionDef ps :: _ => some ps
  | .otherNode :: rest => enclosingParams rest

/-- `_get_subject_annotation`: the subject must be a simple `Name`; walk
up to the nearest enclosing function definition; the first parameter with
the subject's name yields its annotation (which may itself be absent). -/
def getSubjectAnnot (m : MatchNode) : Option TExpr :=
  match m.subject with
  | .name varName =>
      match enclosingParams m.ancestors with
      | none => none
      | some ps => (ps.find? (fun p => p.1 = varName)).bind (fun p => p.2)
  | _ => none

/-- `visit_match`: resolve the subject's annotation (bail out silently when
absent), compute the variant set (bail out when empty), collect handled
labels, short-circuit on the wildcard marker, and otherwise emit one
diagnostic carrying the sorted missing labels when the difference is
non-empty. The result is the list of emitted diagnostics, each one its
`args` value: the sorted list of missing labels. -/
def visitMatch (env : Env) (m : MatchNode) : Except String (List (List String)) :=
  match getSubjectAnnot m with
  | none => .ok []
  | some ann =>
      match getVariants env ann with
      | .error e => .error e
      | .ok variants =>
          if variants = ∅ then .ok []
          else
            match getHandledVariants m.cases with
            | .error e => .error e
            | .ok handled =>
                if "_" ∈ handled then .ok []
                else
                  let missing := variants \ handled
                  if missing = ∅ then .ok []
                  else .ok [missing.sort (fun a b => a ≤ b)]

/-- Assignment targets as seen by `RebindChecker.visit_assign`: an
`AssignName` target carries the bound name; every other target kind
(attribute, subscript, ...) is skipped by the checker. -/
inductive ATarget where
  | assignName (n : String)
  | otherTarget

/-- The simple names among a statement's targets (the set comprehension
over `node.targets` filtered to `AssignName`). -/
def assignNames (ts : List ATarget) : Finset String :=
  (ts.filterMap (fun t =>
    match t with
    | .assignName n => some n
    | .otherTarget => none)).toFinset

/-- The scope tracker state: `self.scopes`, a stack of binding sets. The
embedding keeps the innermost scope at the HEAD of the list, so Python's
`scopes[-1]` is the head, `append` is cons and `pop` drops the head. -/
structure RState where
  scopes : List (Finset String)

/-- `RebindChecker.open`: a single empty module-level scope. -/
def openScopes : RState := ⟨[∅]⟩

/-- The scope tracker operations driven by the host traversal:
`visit_functiondef`, `leave_functiondef` and `visit_assign`. -/
inductive ROp where
  | enter
  | leave
  | assign (targets : List ATarget)

/-- One visitor callback of `RebindChecker`. `enter` pushes a fresh empty
scope; `leave` pops the innermost scope (an index error on an empty
stack, like Python `list.pop`); `assign` reads `scopes[-1]` (an index
error on an empty stack), emits one rebind diagnostic per distinct
`AssignName` target name already present in the innermost scope — the
emission order of Python set iteration is determinized here as the sorted
order — and then adds all assigned names to the innermost scope. -/
def rstep (s : RState) : ROp → Except String (RState × List String)
  | .enter => .ok (⟨∅ :: s.scopes⟩, [])
  | .leave =>
      match s.scopes with
      | [] => .error "IndexError: pop from empty list"
      | _ :: rest => .ok (⟨rest⟩, [])
  | .assign ts =>
      match s.scopes with
      | [] => .error "IndexError: list index out of range"
      | scope :: rest =>
          let names := assignNames ts
          let rebindNames := names.filter (fun n => n ∈ scope)
          .ok (⟨(scope ∪ names) :: rest⟩, rebindNames.sort (fun a b => a ≤ b))

/-- A sequence of visitor callbacks, accumulating emitted diagnostics in
order. -/
def runOps (s : RState) : List ROp → Except String (RState × List String)
  | [] => .ok (s, [])
  | op :: rest =>
      match rstep s op with
      | .error e => .error e
      | .ok (s1, ds) =>
          match runOps s1 rest with
          | .error e => .error e
          | .ok (s2, ds2) => .ok (s2, ds ++ ds2)

/-- Decidable equality for `Except` results, so that concrete runs of the
checkers can be evaluated inside proofs. -/
instance {ε α : Type} [DecidableEq ε] [DecidableEq α] : DecidableEq (Except ε α) := fun a b =>
  match a, b with
  | .ok x, .ok y =>
      if h : x = y then isTrue (by rw [h]) else isFalse (fun hh => by cases hh; exact h rfl)
  | .error x, .error y =>
      if h : x = y then isTrue (by rw [h]) else isFalse (fun hh => by cases hh; exact h rfl)
  | .ok _, .error _ => isFalse (fun hh => by cases hh)
  | .error _, .ok _ => isFalse (fun hh => by cases hh)

/-- The module `Result = Union[Ok, Err]`: an alias bound to an explicit
`Union` subscript over the two class names. -/
def unionEnv : Env :=
  [("Result", .assignDef (.subscript (.name "Union") (.tuple [.name "Ok", .name "Err"])))]

/-- The module `Result = Ok | Err`: an alias bound to a PEP 604 chain of
binary `|` type operators over the two class names. -/
def pepEnv : Env :=
  [("Result", .assignDef (.binOp "|" (.name "Ok") (.name "Err")))]

/-- The builtin `bool` as astroid's lookup finds it: a class definition
whose body contains no simple `name = value` assignment statements. -/
def boolEnv : Env := [("bool", .clsDef [.otherStmt])]

/-- A match over the parameter `res : Result` of the enclosing function,
with the given case clauses. -/
def resultMatch (cs : List MatchCase) : MatchNode :=
  { subject := .name "res"
    ancestors := [.functionDef [("res", some (.name "Result"))]]
    cases := cs }

/-- A match over the parameter `b : bool` of the enclosing function whose
only clause is `case True:`. -/
def boolMatch : MatchNode :=
  { subject := .name "b"
    ancestors := [.functionDef [("b", some (.name "bool"))]]
    cases := [⟨.matchValue (.const "True"), none⟩] }

/-! ## Helper lemmas -/

/-- One classification step only ever grows the accumulated label set. -/
theorem handledStep_subset {acc b : Finset String} {p : Pattern}
    (h : handledStep acc p = .ok b) : acc ⊆ b := by
  cases p with
  | matchAs nm =>
      cases nm with
      | none =>
          simp only [handledStep, Except.ok.injEq] at h
          subst h
          exact Finset.subset_insert _ _
      | some s =>
          simp only [handledStep, Except.ok.injEq] at h
          subst h
          exact Finset.Subset.refl _
  | matchClass cls =>
      cases cls with
      | name n =>
          simp only [handledStep, Except.ok.injEq] at h
          subst h
          exact Finset.subset_insert _ _
      | attr e a => simp [handledStep] at h
      | const t => simp [handledStep] at h
      | subscript v s => simp [handledStep] at h
      | binOp op l r => simp [handledStep] at h
      | tuple es => simp [handledStep] at h
  | matchValue v =>
      simp only [handledStep, Except.ok.injEq] at h
      subst h
      exact Finset.subset_insert _ _
  | matchOr pats =>
      simp only [handledStep, Except.ok.injEq] at h
      subst h
      exact Finset.Subset.refl _
  | otherPattern =>
      simp only [handledStep, Except.ok.injEq] at h
      subst h
      exact Finset.Subset.refl _

/-- The clause loop only ever grows the accumulated label set. -/
theorem getHandledAux_subset {cs : List MatchCase} :
    ∀ {acc H : Finset String}, getHandledAux acc cs = .ok H → acc ⊆ H := by
  induction cs with
  | nil =>
      intro acc H h
      simp only [getHandledAux, Except.ok.injEq] at h
      subst h
      exact Finset.Subset.refl _
  | cons c rest ih =>
      intro acc H h
      simp only [getHandledAux] at h
      cases hs : handledStep acc c.pattern with
      | error e => rw [hs] at h; exact absurd h (by simp)
      | ok acc2 =>
          rw [hs] at h
          exact (handledStep_subset hs).trans (ih h)

/-- A capture-free `MatchAs` clause puts the wildcard marker into any
successful result of the clause loop. -/
theorem wildcard_mem_getHandledAux {cs : List MatchCase} :
    ∀ {acc H : Finset String}, getHandledAux acc cs = .ok H →
      ∀ c ∈ cs, c.pattern = .matchAs none → "_" ∈ H := by
  induction cs with
  | nil => intro acc H _ c hc; exact absurd hc (List.not_mem_nil c)
  | cons c0 rest ih =>
      intro acc H h c hc hp
      simp only [getHandledAux] at h
      cases hs : handledStep acc c0.pattern with
      | error e => rw [hs] at h; exact absurd h (by simp)
      | ok acc2 =>
          rw [hs] at h
          rcases List.mem_cons.mp hc with hc0 | hcr
          · subst hc0
            rw [hp] at hs
            simp only [handledStep, Except.ok.injEq] at hs
            subst hs
            exact getHandledAux_subset h (Finset.mem_insert_self _ _)
          · exact ih h c hcr hp

/-- Clause classification reads only the patterns: two clause lists with
the same patterns classify identically, whatever their guards. -/
theorem getHandledAux_guard_irrelevant {cs1 : List MatchCase} :
    ∀ {cs2 : List MatchCase},
      cs1.map (fun c => c.pattern) = cs2.map (fun c => c.pattern) →
      ∀ acc, getHandledAux acc cs1 = getHandledAux acc cs2 := by
  induction cs1 with
  | nil =>
      intro cs2 h acc
      cases cs2 with
      | nil => rfl
      | cons c cs => simp at h
  | cons c rest ih =>
      intro cs2 h acc
      cases cs2 with
      | nil => simp at h
      | cons c2 rest2 =>
          simp only [List.map_cons, List.cons.injEq] at h
          simp only [getHandledAux, h.1]
          cases handledStep acc c2.pattern with
          | error e => rfl
          | ok acc2 => exact ih h.2 acc2

/-- `visit_match` on a construct whose annotation resolves, whose variant
set computes, and whose clauses classify with the wildcard marker present:
nothing is emitted. -/
theorem visitMatch_of_wildcard_marker {env : Env} {m : MatchNode} {ann : TExpr}
    {V H : Finset String} (h0 : getSubjectAnnot m = some ann)
    (h1 : getVariants env ann = .ok V) (h2 : getHandledVariants m.cases = .ok H)
    (hw : "_" ∈ H) : visitMatch env m = .ok [] := by
  simp only [visitMatch, h0, h1, h2]
  split
  · rfl
  · simp only [if_pos hw]

/-- `visit_match` on a construct with a resolvable non-empty variant set,
successfully classified clauses, no wildcard marker, and a non-empty
missing set: one diagnostic with the sorted missing labels. -/
theorem visitMatch_emits_sorted_missing {env : Env} {m : MatchNode} {ann : TExpr}
    {V H : Finset String} (h0 : getSubjectAnnot m = some ann)
    (h1 : getVariants env ann = .ok V) (h2 : V ≠ ∅)
    (h3 : getHandledVariants m.cases = .ok H) (h4 : "_" ∉ H) (h5 : V \ H ≠ ∅) :
    visitMatch env m = .ok [(V \ H).sort (fun a b => a ≤ b)] := by
  simp only [visitMatch, h0, h1, h3, if_neg h2, if_neg h4, if_neg h5]

/-- `visit_match` under the same resolution hypotheses but with an empty
missing set: nothing is emitted. -/
theorem visitMatch_of_missing_empty {env : Env} {m : MatchNode} {ann : TExpr}
    {V H : Finset String} (h0 : getSubjectAnnot m = some ann)
    (h1 : getVariants env ann = .ok V) (h2 : V ≠ ∅)
    (h3 : getHandledVariants m.cases = .ok H) (h4 : "_" ∉ H) (h5 : V \ H = ∅) :
    visitMatch env m = .ok [] := by
  simp only [visitMatch, h0, h1, h3, if_neg h2, if_neg h4, if_pos h5]

/-! ## Claim theorems -/

/-- C1: for every match construct whose subject resolves to a non-empty
variant set and whose clauses classify without the catch-all marker,
`visit_match` emits a match-not-exhaustive diagnostic iff the variant set
minus the handled labels is non-empty, and the diagnostic args are
exactly the sorted list of that difference. -/
theorem claim1_missing_set_correct (env : Env) (m : MatchNode) (ann : TExpr)
    (V H : Finset String) (h0 : getSubjectAnnot m = some ann)
    (h1 : getVariants env ann = .ok V) (h2 : V.Nonempty)
    (h3 : getHandledVariants m.cases = .ok H) (h4 : "_" ∉ H) :
    (visitMatch env m = .ok [(V \ H).sort (fun a b => a ≤ b)] ↔ (V \ H).Nonempty) ∧
    (V \ H = ∅ → visitMatch env m = .ok []) := by
  have hVne : V ≠ ∅ := Finset.nonempty_iff_ne_empty.mp h2
  refine ⟨⟨?_, ?_⟩, ?_⟩
  · intro hvm
    by_contra hne
    rw [Finset.not_nonempty_iff_eq_empty] at hne
    rw [visitMatch_of_missing_empty h0 h1 hVne h3 h4 hne] at hvm
    simp at hvm
  · intro hne
    exact visitMatch_emits_sorted_missing h0 h1 hVne h3 h4
      (Finset.nonempty_iff_ne_empty.mp hne)
  · intro hemp
    exact visitMatch_of_missing_empty h0 h1 hVne h3 h4 hemp

/-- Witness for C1: the alias `Result = Union[Ok, Err]` with a match
handling only `Ok` — the diagnostic fires and carries the sorted missing
set. -/
theorem claim1_missing_set_correct_witness :
    getSubjectAnnot (resultMatch [⟨.matchClass (.name "Ok"), none⟩]) = some (.name "Result") ∧
    getVariants unionEnv (.name "Result") = .ok {"Ok", "Err"} ∧
    ({"Ok", "Err"} : Finset String).Nonempty ∧
    getHandledVariants (resultMatch [⟨.matchClass (.name "Ok"), none⟩]).cases = .ok {"Ok"} ∧
    "_" ∉ ({"Ok"} : Finset String) ∧
    ((visitMatch unionEnv (resultMatch [⟨.matchClass (.name "Ok"), none⟩]) =
        .ok [(({"Ok", "Err"} : Finset String) \ {"Ok"}).sort (fun a b => a ≤ b)] ↔
        (({"Ok", "Err"} : Finset String) \ {"Ok"}).Nonempty) ∧
      (({"Ok", "Err"} : Finset String) \ {"Ok"} = ∅ →
        visitMatch unionEnv (resultMatch [⟨.matchClass (.name "Ok"), none⟩]) = .ok [])) :=
  ⟨by rfl, by decide, by decide, by decide, by decide,
   claim1_missing_set_correct unionEnv (resultMatch [⟨.matchClass (.name "Ok"), none⟩])
     (.name "Result") {"Ok", "Err"} {"Ok"} (by rfl) (by decide) (by decide) (by decide)
     (by decide)⟩

/-- C5: a match construct containing a catch-all clause (a wildcard
pattern binding no name) never produces a diagnostic, regardless of how
many variant labels the other clauses leave unhandled. -/
theorem claim5_wildcard_short_circuit (env : Env) (m : MatchNode) (ann : TExpr)
    (V H : Finset String) (c : MatchCase)
    (h0 : getSubjectAnnot m = some ann) (h1 : getVariants env ann = .ok V)
    (h2 : getHandledVariants m.cases = .ok H)
    (hc : c ∈ m.cases) (hp : c.pattern = .matchAs none) :
    visitMatch env m = .ok [] :=
  visitMatch_of_wildcard_marker h0 h1 h2 (wildcard_mem_getHandledAux h2 c hc hp)

/-- Witness for C5: `Result = Union[Ok, Err]` with a lone wildcard clause
leaving both `Ok` and `Err` nominally unhandled — no diagnostic. -/
theorem claim5_wildcard_short_circuit_witness :
    getSubjectAnnot (resultMatch [⟨.matchAs none, none⟩]) = some (.name "Result") ∧
    getVariants unionEnv (.name "Result") = .ok ({"Ok", "Err"} : Finset String) ∧
    getHandledVariants (resultMatch [⟨.matchAs none, none⟩]).cases = .ok {"_"} ∧
    (⟨.matchAs none, none⟩ : MatchCase) ∈ (resultMatch [⟨.matchAs none, none⟩]).cases ∧
    (⟨.matchAs none, none⟩ : MatchCase).pattern = .matchAs none ∧
    visitMatch unionEnv (resultMatch [⟨.matchAs none, none⟩]) = .ok [] :=
  ⟨by rfl, by decide, by decide, List.mem_cons_self _ _, rfl,
   claim5_wildcard_short_circuit unionEnv (resultMatch [⟨.matchAs none, none⟩])
     (.name "Result") {"Ok", "Err"} {"_"} ⟨.matchAs none, none⟩ (by rfl) (by decide)
     (by decide) (List.mem_cons_self _ _) rfl⟩

/-- C10: clause classification never reads the guard — two clause lists
with identical patterns classify identically — and in particular a
guarded no-capture wildcard suppresses the report exactly as an unguarded
one does. -/
theorem claim10_guard_never_read (env : Env) (m : MatchNode) (ann : TExpr)
    (V H : Finset String) (g : TExpr)
    (h0 : getSubjectAnnot m = some ann) (h1 : getVariants env ann = .ok V)
    (h2 : getHandledVariants m.cases = .ok H)
    (hc : (⟨.matchAs none, some g⟩ : MatchCase) ∈ m.cases) :
    visitMatch env m = .ok [] ∧
      ∀ cs1 cs2 : List MatchCase,
        cs1.map (fun c => c.pattern) = cs2.map (fun c => c.pattern) →
        getHandledVariants cs1 = getHandledVariants cs2 :=
  ⟨visitMatch_of_wildcard_marker h0 h1 h2
      (wildcard_mem_getHandledAux h2 ⟨.matchAs none, some g⟩ hc rfl),
   fun _ _ h => getHandledAux_guard_irrelevant h ∅⟩

/-- Witness for C10: a wildcard clause carrying the guard `cond` still
suppresses the report over `Result = Union[Ok, Err]`. -/
theorem claim10_guard_never_read_witness :
    getSubjectAnnot (resultMatch [⟨.matchAs none, some (.name "cond")⟩]) =
      some (.name "Result") ∧
    getVariants unionEnv (.name "Result") = .ok ({"Ok", "Err"} : Finset String) ∧
    getHandledVariants (resultMatch [⟨.matchAs none, some (.name "cond")⟩]).cases =
      .ok {"_"} ∧
    (⟨.matchAs none, some (.name "cond")⟩ : MatchCase) ∈
      (resultMatch [⟨.matchAs none, some (.name "cond")⟩]).cases ∧
    (visitMatch unionEnv (resultMatch [⟨.matchAs none, some (.name "cond")⟩]) = .ok [] ∧
      ∀ cs1 cs2 : List MatchCase,
        cs1.map (fun c => c.pattern) = cs2.map (fun c => c.pattern) →
        getHandledVariants cs1 = getHandledVariants cs2) :=
  ⟨by rfl, by decide, by decide, List.mem_cons_self _ _,
   claim10_guard_never_read unionEnv (resultMatch [⟨.matchAs none, some (.name "cond")⟩])
     (.name "Result") {"Ok", "Err"} {"_"} (.name "cond") (by rfl) (by decide) (by decide)
     (List.mem_cons_self _ _)⟩

/-- C8: when the subject is not a simple name, or no enclosing function
definition exists, or the subject name is not among the enclosing
function's parameters, or the resolved type yields an empty variant set,
`visit_match` returns normally and emits nothing. -/
theorem claim8_unresolvable_silent (env : Env) (m : MatchNode)
    (h : (∀ n, m.subject ≠ .name n) ∨
         enclosingParams m.ancestors = none ∨
         (∃ n ps, m.subject = .name n ∧ enclosingParams m.ancestors = some ps ∧
            ∀ p ∈ ps, p.1 ≠ n) ∨
         (∃ ann, getSubjectAnnot m = some ann ∧ getVariants env ann = .ok ∅)) :
    visitMatch env m = .ok [] := by
  rcases h with h | h | ⟨n, ps, hs, hp, hnp⟩ | ⟨ann, h0, h1⟩
  · have hnone : getSubjectAnnot m = none := by
      cases hs : m.subject with
      | name s => exact absurd hs (h s)
      | attr e a => simp [getSubjectAnnot, hs]
      | const t => simp [getSubjectAnnot, hs]
      | subscript v sl => simp [getSubjectAnnot, hs]
      | binOp op l r => simp [getSubjectAnnot, hs]
      | tuple es => simp [getSubjectAnnot, hs]
    simp [visitMatch, hnone]
  · have hnone : getSubjectAnnot m = none := by
      cases hs : m.subject with
      | name s => simp [getSubjectAnnot, hs, h]
      | attr e a => simp [getSubjectAnnot, hs]
      | const t => simp [getSubjectAnnot, hs]
      | subscript v sl => simp [getSubjectAnnot, hs]
      | binOp op l r => simp [getSubjectAnnot, hs]
      | tuple es => simp [getSubjectAnnot, hs]
    simp [visitMatch, hnone]
  · have hfind : ps.find? (fun p => p.1 = n) = none := by
      rw [List.find?_eq_none]
      intro p hps
      simp only [decide_eq_true_eq]
      exact hnp p hps
    have hnone : getSubjectAnnot m = none := by
      simp [getSubjectAnnot, hs, hp, hfind]
    simp [visitMatch, hnone]
  · simp [visitMatch, h0, h1]

/-- Witness for C8: a match whose subject is the literal `5` (not a
simple name) is skipped silently. -/
theorem claim8_unresolvable_silent_witness :
    ((∀ n, (MatchNode.mk (.const "5") [] []).subject ≠ .name n) ∨
      enclosingParams (MatchNode.mk (.const "5") [] []).ancestors = none ∨
      (∃ n ps, (MatchNode.mk (.const "5") [] []).subject = .name n ∧
        enclosingParams (MatchNode.mk (.const "5") [] []).ancestors = some ps ∧
        ∀ p ∈ ps, p.1 ≠ n) ∨
      (∃ ann, getSubjectAnnot (MatchNode.mk (.const "5") [] []) = some ann ∧
        getVariants unionEnv ann = .ok ∅)) ∧
    visitMatch unionEnv (MatchNode.mk (.const "5") [] []) = .ok [] :=
  ⟨Or.inl (fun n hn => by cases hn),
   claim8_unresolvable_silent unionEnv (MatchNode.mk (.const "5") [] [])
     (Or.inl (fun n hn => by cases hn))⟩

/-- C6: a single `visit_assign` on any reachable scope stack diagnoses a
name exactly once when it is both a target of the statement and already
present in the innermost scope (so the first binding never diagnoses, a
repeated-target statement diagnoses the name at most once, and only
pre-existing state — never the statement's own set update — triggers the
diagnostic), and in all cases adds every simple-name target to the
innermost scope. -/
theorem claim6_rebind_per_occurrence (scope : Finset String)
    (rest : List (Finset String)) (ts : List ATarget) (n : String) :
    ∃ ds : List String,
      rstep ⟨scope :: rest⟩ (.assign ts) = .ok (⟨(scope ∪ assignNames ts) :: rest⟩, ds) ∧
      ds.count n = (if n ∈ scope ∧ n ∈ assignNames ts then 1 else 0) := by
  refine ⟨((assignNames ts).filter (fun x => x ∈ scope)).sort (fun a b => a ≤ b), rfl, ?_⟩
  rw [List.count_eq_of_nodup (Finset.sort_nodup _ _)]
  by_cases hmem : n ∈ scope ∧ n ∈ assignNames ts
  · rw [if_pos hmem, if_pos]
    rw [Finset.mem_sort, Finset.mem_filter]
    exact ⟨hmem.2, hmem.1⟩
  · rw [if_neg hmem, if_neg]
    rw [Finset.mem_sort, Finset.mem_filter]
    intro hx
    exact hmem ⟨hx.2, hx.1⟩

/-- `visit_assign` on a freshly pushed (empty) innermost scope emits no
diagnostics. -/
theorem rstep_assign_fresh (stack : List (Finset String)) (ts : List ATarget) :
    rstep ⟨∅ :: stack⟩ (.assign ts) = .ok (⟨(∅ ∪ assignNames ts) :: stack⟩, []) := by
  have h : (assignNames ts).filter (fun x => x ∈ (∅ : Finset String)) = ∅ := by
    rw [Finset.filter_eq_empty_iff]
    intro x _
    simp
  simp only [rstep, h, Finset.sort_empty]

/-- C7: rebind detection checks only the innermost scope. Entering a
function pushes a fresh empty scope, so a name already bound in the outer
innermost scope can be bound inside the nested function without a
diagnostic; and two sibling functions can each bind the same name with no
diagnostic anywhere in the traversal. -/
theorem claim7_scope_isolation (outer : Finset String)
    (rest : List (Finset String)) (n : String) (hn : n ∈ outer) :
    (∃ s1, runOps ⟨outer :: rest⟩ [.enter, .assign [.assignName n]] = .ok (s1, [])) ∧
    (∃ s2, runOps ⟨outer :: rest⟩
        [.enter, .assign [.assignName n], .leave, .enter, .assign [.assignName n]] =
        .ok (s2, [])) := by
  have e1 : rstep ⟨outer :: rest⟩ .enter = .ok (⟨∅ :: outer :: rest⟩, []) := rfl
  have e2 := rstep_assign_fresh (outer :: rest) [.assignName n]
  have e3 : rstep ⟨(∅ ∪ assignNames [.assignName n]) :: outer :: rest⟩ .leave =
      .ok (⟨outer :: rest⟩, []) := rfl
  constructor
  · exact ⟨⟨(∅ ∪ assignNames [.assignName n]) :: outer :: rest⟩, by
      simp only [runOps, e1, e2, List.nil_append, List.append_nil]⟩
  · exact ⟨⟨(∅ ∪ assignNames [.assignName n]) :: outer :: rest⟩, by
      simp only [runOps, e1, e2, e3, List.nil_append, List.append_nil]⟩

/-- Witness for C7: the name `x` bound at module level, then bound inside
each of two sibling functions — no diagnostic anywhere. -/
theorem claim7_scope_isolation_witness :
    "x" ∈ ({"x"} : Finset String) ∧
    ((∃ s1, runOps ⟨[{"x"}]⟩ [.enter, .assign [.assignName "x"]] = .ok (s1, [])) ∧
     (∃ s2, runOps ⟨[{"x"}]⟩
        [.enter, .assign [.assignName "x"], .leave, .enter, .assign [.assignName "x"]] =
        .ok (s2, []))) :=
  ⟨by decide, claim7_scope_isolation {"x"} [] "x" (by decide)⟩

/-- C2 (refuted by the code): `_get_handled_variants` has no `MatchOr`
branch, so an or-pattern clause contributes no labels at all. Over
`Result = Union[Ok, Err]`, the single clause `case Ok() | Err():` leaves
the handled set empty and `visit_match` emits a diagnostic with missing
`["Err", "Ok"]`, where the spec demands zero diagnostics. -/
theorem claim2_or_pattern_ignored :
    getHandledVariants
        [⟨.matchOr [.matchClass (.name "Ok"), .matchClass (.name "Err")], none⟩] = .ok ∅ ∧
    visitMatch unionEnv
        (resultMatch [⟨.matchOr [.matchClass (.name "Ok"), .matchClass (.name "Err")], none⟩]) =
      .ok [["Err", "Ok"]] := by
  refine ⟨by decide, ?_⟩
  have h := @visitMatch_emits_sorted_missing unionEnv
    (resultMatch [⟨.matchOr [.matchClass (.name "Ok"), .matchClass (.name "Err")], none⟩])
    (.name "Result") {"Ok", "Err"} ∅
    (by rfl) (by decide) (by decide) (by decide) (by decide) (by decide)
  rw [h]
  rw [show (({"Ok", "Err"} : Finset String) \ ∅) = insert "Err" {"Ok"} from by decide]
  rw [Finset.sort_insert, Finset.sort_singleton]
  · intro b hb
    rw [Finset.mem_singleton] at hb
    subst hb
    rw [String.le_iff_toList_le]
    decide
  · decide

/-- C3 (refuted by the code): `_get_variants` has no special case for the
leaf boolean type. `bool` resolves through the generic name lookup — to
the builtin class, whose body has no simple `name = value` assignments —
so the variant set is empty (never `{"True", "False"}`) and a match over
a `bool` parameter handling only `True` emits nothing. The second
conjunct covers the lookup finding no definition at all. -/
theorem claim3_bool_not_special :
    getVariants boolEnv (.name "bool") = .ok ∅ ∧
    getVariants [] (.name "bool") = .ok ∅ ∧
    visitMatch boolEnv boolMatch = .ok [] := by
  refine ⟨by decide, by decide, by decide⟩

/-- C4 (refuted by the code): `_extract_union_variants` returns the empty
set on a plain `Name` leaf, so the PEP 604 alias `Result = Ok | Err`
extracts to the empty variant set and a match handling only `Ok` emits no
diagnostic at all — not a diagnostic with missing `["Err"]`. -/
theorem claim4_pep604_leaf_empty :
    extractUnionVariants (.binOp "|" (.name "Ok") (.name "Err")) = .ok ∅ ∧
    getVariants pepEnv (.name "Result") = .ok ∅ ∧
    visitMatch pepEnv (resultMatch [⟨.matchClass (.name "Ok"), none⟩]) = .ok [] := by
  refine ⟨by decide, by decide, by decide⟩

/-- C9 (refuted by the code): a class-destructure pattern naming its
class by a qualified attribute path makes `_get_handled_variants` read
`pat.cls.name` off an `Attribute` node, which raises an attribute error
instead of returning — `visit_match` does not return normally. -/
theorem claim9_qualified_class_crashes :
    visitMatch unionEnv (resultMatch [⟨.matchClass (.attr (.name "foo") "Ok"), none⟩]) =
      .error "AttributeError: node object has no attribute name" := by decide

end Purelint
